import Mathlib

/-!
Verification of the `rusty_plug` smart-home registry (`src/lib.rs`).

Shallow embedding of the library crate. Modelling decisions:

* `Rc<Socket>` handles are modelled by `SocketRef`: the allocation identity
  (`Rc::ptr_eq`) becomes a natural-number `id`, and the immutable `name`
  field is carried in the reference. The mutable `Cell<f64>` voltage lives
  in a separate heap (`VoltHeap`, an association list from allocation id to
  the current reading), since `poll` mutates it through the shared handle.
* Voltages (`f64` values drawn from `[0.0, 380.0)`) are modelled as
  rationals; the claims about them concern only range membership.
* `std::collections::HashMap` is modelled by an association list with the
  usual map semantics: `alGet` returns the first binding, `alInsert`
  replaces an existing binding in place or appends a fresh one, `alRemove`
  deletes the binding.  All mutating `House` methods take `&mut self` in
  the source, so they are state-passing functions `House → ... → House`
  here, paired with the returned `Result` where the source returns one.
* The entropy source (`rand::thread_rng` / `gen_range(0.0..380.0)`) is an
  external collaborator; it is modelled as a stream `Nat → ℚ` consumed one
  sample per `poll` call, with the range promise as a hypothesis.
-/

namespace RustyPlug

/-- Association-list lookup, modelling `HashMap::get`. -/
def alGet {V : Type} : List (String × V) → String → Option V
  | [], _ => none
  | p :: rest, k => if p.1 = k then some p.2 else alGet rest k

/-- Association-list insertion, modelling `HashMap::insert`: replaces the
binding in place when the key is present, otherwise appends it. -/
def alInsert {V : Type} : List (String × V) → String → V → List (String × V)
  | [], k, v => [(k, v)]
  | p :: rest, k, v => if p.1 = k then (k, v) :: rest else p :: alInsert rest k v

/-- Association-list deletion, modelling `HashMap::remove` (the part that
removes the binding; the returned old value is unused by the source). -/
def alRemove {V : Type} (m : List (String × V)) (k : String) : List (String × V) :=
  m.filter (fun p => ¬ p.1 = k)

/-- Modelling `HashMap::entry(k).or_insert(v)`: inserts a default binding
when the key is absent, leaves the map alone when it is present. -/
def alEntryOrInsert {V : Type} (m : List (String × V)) (k : String) (v : V) :
    List (String × V) :=
  match alGet m k with
  | some _ => m
  | none => m ++ [(k, v)]

/-- A shared handle `Rc<Socket>`: `id` is the allocation identity compared
by `Rc::ptr_eq`; `name` is the socket's immutable `name` field. -/
structure SocketRef where
  id : Nat
  name : String
deriving DecidableEq, Repr

/-- The mutable voltage cells of all socket allocations: allocation id to
the current contents of the socket's `Cell<f64>`. -/
abbrev VoltHeap : Type := List (Nat × ℚ)

/-- Writing a socket's voltage cell (`Cell::set` through the handle). -/
def heapSet (heap : VoltHeap) (i : Nat) (v : ℚ) : VoltHeap :=
  List.map (fun p => if p.1 = i then (i, v) else p) heap

/-- Rust's `struct WhereAmI(String)` — the inner payload of the room error. -/
structure WhereAmI where
  room : String
deriving DecidableEq, Repr

/-- Rust's `struct NoSuchRoom(#[from] WhereAmI)`. -/
structure NoSuchRoom where
  whereAmI : WhereAmI
deriving DecidableEq, Repr

/-- Rust's `struct AlreadyContainsDevice(String)` — carries the device name. -/
structure AlreadyContainsDevice where
  deviceName : String
deriving DecidableEq, Repr

/-- Rust's `struct SocketStorage { devices: Vec<Rc<Socket>> }`. -/
structure SocketStorage where
  devices : List SocketRef
deriving DecidableEq, Repr

/-- Constructor `SocketStorage::new()`. -/
def SocketStorage.new : SocketStorage :=
  ⟨[]⟩

/-- Method `DeviceStorage::<Socket>::add` — `self.devices.push(device)`. -/
def SocketStorage.add (s : SocketStorage) (device : SocketRef) : SocketStorage :=
  ⟨s.devices ++ [device]⟩

/-- Rust's `struct House { name, device_by_room, sockets }`.  Every device the
program ever stores is a socket, so the `Rc<dyn Device>` values of the
inner maps are `SocketRef`s. -/
structure House where
  name : String
  device_by_room : List (String × List (String × SocketRef))
  sockets : SocketStorage
deriving DecidableEq, Repr

namespace House

/-- Constructor `House::new(name)`. -/
def new (name : String) : House :=
  ⟨name, [], SocketStorage.new⟩

/-- Method `House::rooms` — `self.device_by_room.keys().cloned().collect()`. -/
def rooms (h : House) : List String :=
  h.device_by_room.map Prod.fst

/-- Method `House::devices` — looks the room up, `Err(NoSuchRoom(WhereAmI(room)))`
when absent, otherwise the keys of the room's device map. -/
def devices (h : House) (room : String) : Except NoSuchRoom (List String) :=
  match alGet h.device_by_room room with
  | none => .error ⟨⟨room⟩⟩
  | some devs => .ok (devs.map Prod.fst)

/-- Method `House::add_socket_to_room`.  Returns the updated house together with
`None` on success and `Some err` on the early `return Err(..)` (where the
source leaves `self` untouched).  The duplicate check reads
`self.devices(room)` and only then the insertion path runs:
`entry(room).or_insert(HashMap::new())`, then
`get_mut(room).unwrap().insert(name, socket)` — the `unwrap` cannot panic
because the entry was just ensured, which the model renders with `getD` —
then `self.sockets.add(socket)`. -/
def add_socket_to_room (h : House) (socket : SocketRef) (room : String) :
    House × Option AlreadyContainsDevice :=
  let dup := match h.devices room with
    | .ok devs => devs.contains socket.name
    | .error _ => false
  if dup then
    (h, some ⟨socket.name⟩)
  else
    let dbr0 := alEntryOrInsert h.device_by_room room []
    let roomMap := (alGet dbr0 room).getD []
    let dbr1 := alInsert dbr0 room (alInsert roomMap socket.name socket)
    ({ h with device_by_room := dbr1, sockets := h.sockets.add socket }, none)

/-- Method `House::remove_room` — `self.device_by_room.remove(room)`. -/
def remove_room (h : House) (room : String) : House :=
  { h with device_by_room := alRemove h.device_by_room room }

/-- Method `House::remove_socket_from_room` — when the room exists, remove the
binding keyed by `socket.name` from its map; then unconditionally
`self.sockets.devices.retain(|sock| !Rc::ptr_eq(sock, &socket))`. -/
def remove_socket_from_room (h : House) (room : String) (socket : SocketRef) :
    House :=
  let dbr := match alGet h.device_by_room room with
    | some devs => alInsert h.device_by_room room (alRemove devs socket.name)
    | none => h.device_by_room
  { h with
    device_by_room := dbr
    sockets := ⟨h.sockets.devices.filter (fun sock => ¬ sock.id = socket.id)⟩ }

/-- The allocation ids polled by `House::poll`, in iteration order: for
every room, for every device of that room. -/
def pollIds (h : House) : List Nat :=
  (h.device_by_room.map (fun rd => rd.2.map (fun nd => nd.2.id))).flatten

/-- One `Socket::poll` call: `self.voltage.set(Self::rand_voltage())`,
consuming the next sample of the entropy stream. -/
def pollOne (entropy : Nat → ℚ) (i : Nat) : Nat × VoltHeap → Nat × VoltHeap :=
  fun kh => (kh.1 + 1, heapSet kh.2 i (entropy kh.1))

/-- Method `House::poll` — `&self`, so the house itself is unchanged; the effect
is on the voltage cells reached through the stored handles.  `k` is the
number of entropy samples consumed so far. -/
def poll (h : House) (entropy : Nat → ℚ) (k : Nat) (heap : VoltHeap) :
    Nat × VoltHeap :=
  h.pollIds.foldl (fun kh i => pollOne entropy i kh) (k, heap)

end House

/-! Basic facts about the association-list model of `HashMap`. -/

theorem alGet_alInsert_self {V : Type} (m : List (String × V)) (k : String) (v : V) :
    alGet (alInsert m k v) k = some v := by
  induction m with
  | nil => simp [alInsert, alGet]
  | cons p rest ih =>
    by_cases hp : p.1 = k
    · simp [alInsert, alGet, hp]
    · simp [alInsert, alGet, hp, ih]

theorem alGet_alInsert_ne {V : Type} (m : List (String × V)) (k k' : String) (v : V)
    (h : k' ≠ k) : alGet (alInsert m k v) k' = alGet m k' := by
  induction m with
  | nil => simp [alInsert, alGet, Ne.symm h]
  | cons p rest ih =>
    by_cases hp : p.1 = k
    · simp [alInsert, alGet, hp, Ne.symm h]
    · simp only [alInsert, hp, if_false, alGet]
      by_cases hp' : p.1 = k'
      · simp [hp']
      · simp [hp', ih]

theorem alGet_alRemove_self {V : Type} (m : List (String × V)) (k : String) :
    alGet (alRemove m k) k = none := by
  induction m with
  | nil => simp [alRemove, alGet]
  | cons p rest ih =>
    by_cases hp : p.1 = k
    · simpa [alRemove, List.filter_cons, hp] using ih
    · simpa [alRemove, List.filter_cons, hp, alGet] using ih

theorem alGet_alRemove_ne {V : Type} (m : List (String × V)) (k k' : String)
    (h : k' ≠ k) : alGet (alRemove m k) k' = alGet m k' := by
  induction m with
  | nil => simp [alRemove, alGet]
  | cons p rest ih =>
    by_cases hp : p.1 = k
    · simpa [alRemove, List.filter_cons, hp, alGet, Ne.symm h] using ih
    · by_cases hp' : p.1 = k'
      · simp [alRemove, List.filter_cons, hp, alGet, hp', h]
      · simpa [alRemove, List.filter_cons, hp, alGet, hp'] using ih

theorem alGet_eq_none_iff {V : Type} (m : List (String × V)) (k : String) :
    alGet m k = none ↔ k ∉ m.map Prod.fst := by
  induction m with
  | nil => simp [alGet]
  | cons p rest ih =>
    by_cases hp : p.1 = k
    · simp [alGet, hp]
    · simp [alGet, hp, ih, Ne.symm hp]

theorem mem_keys_of_alGet_some {V : Type} {m : List (String × V)} {k : String} {v : V}
    (h : alGet m k = some v) : k ∈ m.map Prod.fst := by
  by_contra hk
  rw [← alGet_eq_none_iff] at hk
  rw [h] at hk
  exact Option.noConfusion hk

theorem alRemove_eq_self_of_alGet_none {V : Type} {m : List (String × V)} {k : String}
    (h : alGet m k = none) : alRemove m k = m := by
  rw [alGet_eq_none_iff] at h
  refine List.filter_eq_self.mpr ?_
  intro p hp
  simp only [decide_eq_true_eq]
  intro hpk
  exact h (hpk ▸ List.mem_map_of_mem Prod.fst hp)

theorem alRemove_alRemove {V : Type} (m : List (String × V)) (k : String) :
    alRemove (alRemove m k) k = alRemove m k :=
  alRemove_eq_self_of_alGet_none (alGet_alRemove_self m k)

theorem map_fst_alRemove {V : Type} (m : List (String × V)) (k : String) :
    (alRemove m k).map Prod.fst = (m.map Prod.fst).filter (fun x => ¬ x = k) := by
  induction m with
  | nil => simp [alRemove]
  | cons p rest ih =>
    by_cases hp : p.1 = k
    · simpa [alRemove, List.filter_cons, hp] using ih
    · simpa [alRemove, List.filter_cons, hp] using ih

theorem alGet_append_singleton_self {V : Type} {m : List (String × V)} {k : String}
    {v : V} (h : alGet m k = none) : alGet (m ++ [(k, v)]) k = some v := by
  induction m with
  | nil => simp [alGet]
  | cons p rest ih =>
    by_cases hp : p.1 = k
    · simp [alGet, hp] at h
    · simp only [alGet, hp] at h
      simpa [alGet, hp] using ih h

theorem alGet_append_singleton_ne {V : Type} (m : List (String × V)) (k k' : String)
    (v : V) (h : k' ≠ k) : alGet (m ++ [(k, v)]) k' = alGet m k' := by
  induction m with
  | nil => simp [alGet, Ne.symm h]
  | cons p rest ih =>
    by_cases hp : p.1 = k'
    · simp [alGet, hp]
    · simpa [alGet, hp] using ih

theorem map_fst_alInsert_of_alGet_none {V : Type} {m : List (String × V)} {k : String}
    (v : V) (h : alGet m k = none) :
    (alInsert m k v).map Prod.fst = m.map Prod.fst ++ [k] := by
  induction m with
  | nil => simp [alInsert]
  | cons p rest ih =>
    by_cases hp : p.1 = k
    · simp [alGet, hp] at h
    · simp only [alGet, hp, if_false] at h
      simpa [alInsert, hp] using ih h

theorem map_fst_alInsert_of_alGet_some {V : Type} {m : List (String × V)} {k : String}
    {w : V} (v : V) (h : alGet m k = some w) :
    (alInsert m k v).map Prod.fst = m.map Prod.fst := by
  induction m with
  | nil => simp [alGet] at h
  | cons p rest ih =>
    by_cases hp : p.1 = k
    · simp [alInsert, hp]
    · simp only [alGet, hp, if_false] at h
      simpa [alInsert, hp] using ih h

/-! Behaviour of `add_socket_to_room`, split by the three paths the source
can take: duplicate name in the room, fresh name in an existing room, and
absent room. -/

theorem add_socket_eq_of_mem (h : House) (d : SocketRef) (r : String)
    (m : List (String × SocketRef)) (hm : alGet h.device_by_room r = some m)
    (hd : d.name ∈ m.map Prod.fst) :
    h.add_socket_to_room d r = (h, some ⟨d.name⟩) := by
  have hdev : h.devices r = .ok (m.map Prod.fst) := by
    unfold House.devices; rw [hm]
  simp [House.add_socket_to_room, hdev, hd]

theorem add_socket_eq_of_present_fresh (h : House) (d : SocketRef) (r : String)
    (m : List (String × SocketRef)) (hm : alGet h.device_by_room r = some m)
    (hd : d.name ∉ m.map Prod.fst) :
    h.add_socket_to_room d r =
      ({ h with
          device_by_room := alInsert h.device_by_room r (alInsert m d.name d)
          sockets := h.sockets.add d }, none) := by
  have hdev : h.devices r = .ok (m.map Prod.fst) := by
    unfold House.devices; rw [hm]
  have h0 : alEntryOrInsert h.device_by_room r ([] : List (String × SocketRef))
      = h.device_by_room := by
    simp [alEntryOrInsert, hm]
  simp [House.add_socket_to_room, hdev, hd, h0, hm]

theorem add_socket_eq_of_absent (h : House) (d : SocketRef) (r : String)
    (hm : alGet h.device_by_room r = none) :
    h.add_socket_to_room d r =
      ({ h with
          device_by_room :=
            alInsert (h.device_by_room ++ [(r, [])]) r (alInsert [] d.name d)
          sockets := h.sockets.add d }, none) := by
  have hdev : h.devices r = .error ⟨⟨r⟩⟩ := by
    unfold House.devices; rw [hm]
  have h0 : alEntryOrInsert h.device_by_room r ([] : List (String × SocketRef))
      = h.device_by_room ++ [(r, [])] := by
    simp [alEntryOrInsert, hm]
  have h1 : alGet (h.device_by_room ++ [(r, [])]) r
      = some ([] : List (String × SocketRef)) :=
    alGet_append_singleton_self hm
  simp [House.add_socket_to_room, hdev, h0, h1]

/-! Claim theorems. -/

/-- C1: for every house state, socket `d` and room name `r`, if a device
whose name equals `d.name` already exists in room `r`, then
`add_socket_to_room d r` returns the `AlreadyContainsDevice` error carrying
`d.name`, and the entire house state — the room-to-device mapping and the
socket index — is exactly as before the call. -/
theorem add_socket_to_room_duplicate_rejected (h : House) (d : SocketRef) (r : String)
    (m : List (String × SocketRef)) (hm : alGet h.device_by_room r = some m)
    (hd : d.name ∈ m.map Prod.fst) :
    h.add_socket_to_room d r = (h, some ⟨d.name⟩) :=
  add_socket_eq_of_mem h d r m hm hd

/-- Witness for C1 at a concrete duplicate insertion. -/
theorem add_socket_to_room_duplicate_rejected_witness :
    House.add_socket_to_room ⟨"H", [("bedroom", [("A", ⟨0, "A"⟩)])], ⟨[⟨0, "A"⟩]⟩⟩
        ⟨1, "A"⟩ "bedroom"
      = (⟨"H", [("bedroom", [("A", ⟨0, "A"⟩)])], ⟨[⟨0, "A"⟩]⟩⟩, some ⟨"A"⟩) :=
  add_socket_to_room_duplicate_rejected _ ⟨1, "A"⟩ "bedroom" [("A", ⟨0, "A"⟩)]
    (by decide) (by decide)

/-- C2: `devices r` returns the `NoSuchRoom` error carrying `r` exactly when
the room-to-device mapping has no entry for `r`, and otherwise returns `Ok`
with the names of the devices stored in room `r`.  The method borrows the
house immutably (`&self`), which the embedding renders by `devices` being a
pure function of the house, so the state is unchanged in both cases. -/
theorem devices_lookup_spec (h : House) (r : String) :
    (h.devices r = .error ⟨⟨r⟩⟩ ↔ alGet h.device_by_room r = none) ∧
    ∀ m, alGet h.device_by_room r = some m → h.devices r = .ok (m.map Prod.fst) := by
  unfold House.devices
  cases hm : alGet h.device_by_room r with
  | none => simp
  | some m => simp

/-- Witness for C2 on a concrete one-room house. -/
theorem devices_lookup_spec_witness :
    House.devices ⟨"H", [("a", [("A", ⟨0, "A"⟩)])], ⟨[⟨0, "A"⟩]⟩⟩ "a" = .ok ["A"] :=
  (devices_lookup_spec ⟨"H", [("a", [("A", ⟨0, "A"⟩)])], ⟨[⟨0, "A"⟩]⟩⟩ "a").2
    [("A", ⟨0, "A"⟩)] (by decide)

/-- C6: `remove_room r` never fails (it is a total function of the state),
deletes `r`'s entry from the room-to-device mapping, is a no-op when `r` is
absent, and is idempotent: a second `remove_room r` yields the very same
state, so in particular `rooms()` is unchanged by the second call. -/
theorem remove_room_spec (h : House) (r : String) :
    alGet (h.remove_room r).device_by_room r = none ∧
    (alGet h.device_by_room r = none → h.remove_room r = h) ∧
    (h.remove_room r).remove_room r = h.remove_room r := by
  refine ⟨alGet_alRemove_self _ _, ?_, ?_⟩
  · intro hnone
    unfold House.remove_room
    rw [alRemove_eq_self_of_alGet_none hnone]
  · unfold House.remove_room
    simp [alRemove_alRemove]

/-- Witness for C6: removing a never-created room from a fresh house is a
no-op. -/
theorem remove_room_spec_witness :
    House.remove_room (House.new "H") "kitchen" = House.new "H" :=
  (remove_room_spec (House.new "H") "kitchen").2.1 (by decide)

/-- C7: `remove_room r` leaves the socket index exactly unchanged (the
removed room's devices are not pruned from it), and leaves the house name
and every other room's mapping unchanged. -/
theorem remove_room_frame (h : House) (r : String) :
    (h.remove_room r).sockets = h.sockets ∧
    (h.remove_room r).name = h.name ∧
    ∀ r', r' ≠ r → alGet (h.remove_room r).device_by_room r' = alGet h.device_by_room r' := by
  refine ⟨rfl, rfl, ?_⟩
  intro r' hr'
  exact alGet_alRemove_ne _ _ _ hr'

/-- Witness for C7: removing room `b` leaves room `a`'s mapping intact. -/
theorem remove_room_frame_witness :
    alGet (House.remove_room ⟨"H", [("a", [("A", ⟨0, "A"⟩)]), ("b", [("B", ⟨1, "B"⟩)])],
        ⟨[⟨0, "A"⟩, ⟨1, "B"⟩]⟩⟩ "b").device_by_room "a"
      = alGet [("a", [("A", ⟨0, "A"⟩)]), ("b", [("B", ⟨1, "B"⟩)])] "a" :=
  (remove_room_frame ⟨"H", [("a", [("A", ⟨0, "A"⟩)]), ("b", [("B", ⟨1, "B"⟩)])],
      ⟨[⟨0, "A"⟩, ⟨1, "B"⟩]⟩⟩ "b").2.2 "a" (by decide)

/-- C3: when no device named `d.name` exists in room `r`,
`add_socket_to_room d r` returns `Ok`, creates the entry for room `r` if it
was absent, inserts `d` under its name into room `r`'s mapping, appends `d`
to the socket index, and changes no other room's mapping (nor the house
name). -/
theorem add_socket_to_room_fresh (h : House) (d : SocketRef) (r : String)
    (hno : ∀ m, alGet h.device_by_room r = some m → d.name ∉ m.map Prod.fst) :
    (h.add_socket_to_room d r).2 = none ∧
    (∃ m', alGet (h.add_socket_to_room d r).1.device_by_room r = some m' ∧
      alGet m' d.name = some d ∧
      ∀ n, n ≠ d.name → alGet m' n = alGet ((alGet h.device_by_room r).getD []) n) ∧
    (h.add_socket_to_room d r).1.sockets.devices = h.sockets.devices ++ [d] ∧
    (∀ r', r' ≠ r →
      alGet (h.add_socket_to_room d r).1.device_by_room r' = alGet h.device_by_room r') ∧
    (h.add_socket_to_room d r).1.name = h.name := by
  cases hm : alGet h.device_by_room r with
  | some m =>
    have hd : d.name ∉ m.map Prod.fst := hno m hm
    rw [add_socket_eq_of_present_fresh h d r m hm hd]
    refine ⟨rfl, ⟨alInsert m d.name d, alGet_alInsert_self _ _ _,
      alGet_alInsert_self _ _ _, ?_⟩, rfl, ?_, rfl⟩
    · intro n hn
      exact alGet_alInsert_ne _ _ _ _ hn
    · intro r' hr'
      exact alGet_alInsert_ne _ _ _ _ hr'
  | none =>
    rw [add_socket_eq_of_absent h d r hm]
    refine ⟨rfl, ⟨alInsert [] d.name d, alGet_alInsert_self _ _ _,
      alGet_alInsert_self _ _ _, ?_⟩, rfl, ?_, rfl⟩
    · intro n hn
      simp [alInsert, alGet, Ne.symm hn]
    · intro r' hr'
      rw [alGet_alInsert_ne _ _ _ _ hr']
      exact alGet_append_singleton_ne _ _ _ _ hr'

/-- Witness for C3: adding socket `A` to a fresh house creates room
`bedroom` around it. -/
theorem add_socket_to_room_fresh_witness :
    ((House.new "H").add_socket_to_room ⟨0, "A"⟩ "bedroom").2 = none ∧
    (∃ m', alGet ((House.new "H").add_socket_to_room ⟨0, "A"⟩ "bedroom").1.device_by_room
        "bedroom" = some m' ∧
      alGet m' (SocketRef.name ⟨0, "A"⟩) = some ⟨0, "A"⟩ ∧
      ∀ n, n ≠ SocketRef.name ⟨0, "A"⟩ →
        alGet m' n = alGet ((alGet (House.new "H").device_by_room "bedroom").getD []) n) ∧
    ((House.new "H").add_socket_to_room ⟨0, "A"⟩ "bedroom").1.sockets.devices
      = (House.new "H").sockets.devices ++ [⟨0, "A"⟩] ∧
    (∀ r', r' ≠ "bedroom" →
      alGet ((House.new "H").add_socket_to_room ⟨0, "A"⟩ "bedroom").1.device_by_room r'
        = alGet (House.new "H").device_by_room r') ∧
    ((House.new "H").add_socket_to_room ⟨0, "A"⟩ "bedroom").1.name = (House.new "H").name :=
  add_socket_to_room_fresh (House.new "H") ⟨0, "A"⟩ "bedroom"
    (fun _ hm => Option.noConfusion hm)

/-- C4: `remove_socket_from_room r d` never fails (it is a total function of
the state); if room `r` exists it removes the binding keyed by `d.name`
from `r`'s mapping (a no-op when no such key), and in every case it removes
from the socket index exactly the handles pointer-identical to `d` (id
equality models `Rc::ptr_eq`); every other room's mapping — in particular a
same-named device living in a different room — and the house name are
unaffected. -/
theorem remove_socket_from_room_spec (h : House) (r : String) (d : SocketRef) :
    (h.remove_socket_from_room r d).sockets.devices
      = h.sockets.devices.filter (fun s => ¬ s.id = d.id) ∧
    (∀ s, s ∈ (h.remove_socket_from_room r d).sockets.devices ↔
      s ∈ h.sockets.devices ∧ ¬ s.id = d.id) ∧
    (∀ m, alGet h.device_by_room r = some m →
      ∃ m', alGet (h.remove_socket_from_room r d).device_by_room r = some m' ∧
        alGet m' d.name = none ∧ ∀ n, n ≠ d.name → alGet m' n = alGet m n) ∧
    (alGet h.device_by_room r = none →
      (h.remove_socket_from_room r d).device_by_room = h.device_by_room) ∧
    (∀ r', r' ≠ r → alGet (h.remove_socket_from_room r d).device_by_room r'
      = alGet h.device_by_room r') ∧
    (h.remove_socket_from_room r d).name = h.name := by
  refine ⟨rfl, ?_, ?_, ?_, ?_, rfl⟩
  · intro s
    simp [House.remove_socket_from_room, List.mem_filter]
  · intro m hm
    refine ⟨alRemove m d.name, ?_, alGet_alRemove_self _ _, ?_⟩
    · simp only [House.remove_socket_from_room, hm]
      exact alGet_alInsert_self _ _ _
    · intro n hn
      exact alGet_alRemove_ne _ _ _ hn
  · intro hm
    simp [House.remove_socket_from_room, hm]
  · intro r' hr'
    cases hm : alGet h.device_by_room r with
    | some m =>
      simp only [House.remove_socket_from_room, hm]
      exact alGet_alInsert_ne _ _ _ _ hr'
    | none =>
      simp [House.remove_socket_from_room, hm]

/-- Witness for C4: removing socket `A` from a two-socket room deletes its
binding and keeps the binding of `B`. -/
theorem remove_socket_from_room_spec_witness :
    ∃ m', alGet ((House.remove_socket_from_room
        ⟨"H", [("a", [("A", ⟨0, "A"⟩), ("B", ⟨1, "B"⟩)])], ⟨[⟨0, "A"⟩, ⟨1, "B"⟩]⟩⟩)
        "a" ⟨0, "A"⟩).device_by_room "a" = some m' ∧
      alGet m' (SocketRef.name ⟨0, "A"⟩) = none ∧
      ∀ n, n ≠ SocketRef.name ⟨0, "A"⟩ →
        alGet m' n = alGet [("A", ⟨0, "A"⟩), ("B", ⟨1, "B"⟩)] n :=
  (remove_socket_from_room_spec
      ⟨"H", [("a", [("A", ⟨0, "A"⟩), ("B", ⟨1, "B"⟩)])], ⟨[⟨0, "A"⟩, ⟨1, "B"⟩]⟩⟩
      "a" ⟨0, "A"⟩).2.2.1 [("A", ⟨0, "A"⟩), ("B", ⟨1, "B"⟩)] (by decide)

/-- C10: when the same socket handle `d` (same allocation id) was added to
more than one room, a single `remove_socket_from_room r1 d` purges every
pointer-identical occurrence of `d` from the socket index, while `d`'s
binding in another room `r2 ≠ r1` stays in the room-to-device mapping — so
a device can remain listed in a room yet be absent from the socket index. -/
theorem remove_socket_shared_handle (h : House) (d : SocketRef) (r1 r2 : String)
    (m2 : List (String × SocketRef)) (hne : r2 ≠ r1)
    (hm2 : alGet h.device_by_room r2 = some m2) (hd2 : alGet m2 d.name = some d) :
    (∀ s ∈ (h.remove_socket_from_room r1 d).sockets.devices, ¬ s.id = d.id) ∧
    ∃ m2', alGet (h.remove_socket_from_room r1 d).device_by_room r2 = some m2' ∧
      alGet m2' d.name = some d := by
  constructor
  · intro s hs
    have := (List.mem_filter.mp hs).2
    simpa using this
  · refine ⟨m2, ?_, hd2⟩
    cases hm1 : alGet h.device_by_room r1 with
    | some m1 =>
      simp only [House.remove_socket_from_room, hm1]
      rw [alGet_alInsert_ne _ _ _ _ hne]
      exact hm2
    | none =>
      simpa [House.remove_socket_from_room, hm1] using hm2

/-- Witness for C10: the handle with id 5 sits in rooms `a` and `b`; removing
it from `a` empties the socket index yet keeps its binding in `b`. -/
theorem remove_socket_shared_handle_witness :
    (∀ s ∈ ((House.remove_socket_from_room
        ⟨"H", [("a", [("A", ⟨5, "A"⟩)]), ("b", [("A", ⟨5, "A"⟩)])],
          ⟨[⟨5, "A"⟩, ⟨5, "A"⟩]⟩⟩) "a" ⟨5, "A"⟩).sockets.devices,
      ¬ s.id = SocketRef.id ⟨5, "A"⟩) ∧
    ∃ m2', alGet ((House.remove_socket_from_room
        ⟨"H", [("a", [("A", ⟨5, "A"⟩)]), ("b", [("A", ⟨5, "A"⟩)])],
          ⟨[⟨5, "A"⟩, ⟨5, "A"⟩]⟩⟩) "a" ⟨5, "A"⟩).device_by_room "b" = some m2' ∧
      alGet m2' (SocketRef.name ⟨5, "A"⟩) = some ⟨5, "A"⟩ :=
  remove_socket_shared_handle
    ⟨"H", [("a", [("A", ⟨5, "A"⟩)]), ("b", [("A", ⟨5, "A"⟩)])], ⟨[⟨5, "A"⟩, ⟨5, "A"⟩]⟩⟩
    ⟨5, "A"⟩ "a" "b" [("A", ⟨5, "A"⟩)] (by decide) (by decide) (by decide)

/-- C5 counterexample: the claim states that after
`remove_socket_from_room` removes the last device from room `r`, `r` no
longer appears in `rooms()` and `devices r` fails with the room-not-found
error.  On the concrete run — add socket `A` to `bedroom` in a fresh house,
then remove it — the source instead keeps the emptied room: `bedroom` still
appears in `rooms()` and `devices "bedroom"` succeeds with the empty list,
so an emptied room is observably different from a never-created one. -/
theorem remove_last_socket_keeps_room_counterexample :
    "bedroom" ∈ (((House.new "H").add_socket_to_room ⟨0, "A"⟩ "bedroom").1.remove_socket_from_room
        "bedroom" ⟨0, "A"⟩).rooms ∧
    (((House.new "H").add_socket_to_room ⟨0, "A"⟩ "bedroom").1.remove_socket_from_room
        "bedroom" ⟨0, "A"⟩).rooms = ["bedroom"] ∧
    (((House.new "H").add_socket_to_room ⟨0, "A"⟩ "bedroom").1.remove_socket_from_room
        "bedroom" ⟨0, "A"⟩).devices "bedroom" = .ok [] :=
  ⟨by decide, by decide, rfl⟩

/-- C5 (amended): `remove_socket_from_room` removes the inner binding but
keeps the room's (now empty) entry in the outer mapping, so after it
removes the last device from room `r`, `r` STILL appears in `rooms()` and
`devices r` succeeds with the empty list — an emptied room is
distinguishable from a never-created one. -/
theorem remove_last_socket_keeps_empty_room (h : House) (d : SocketRef) (r : String)
    (m : List (String × SocketRef)) (hm : alGet h.device_by_room r = some m)
    (hkeys : m.map Prod.fst = [d.name]) :
    r ∈ (h.remove_socket_from_room r d).rooms ∧
    (h.remove_socket_from_room r d).devices r = .ok [] := by
  have hget : alGet (h.remove_socket_from_room r d).device_by_room r
      = some (alRemove m d.name) := by
    simp only [House.remove_socket_from_room, hm]
    exact alGet_alInsert_self _ _ _
  have hempty : (alRemove m d.name).map Prod.fst = [] := by
    rw [map_fst_alRemove, hkeys]
    simp
  constructor
  · exact mem_keys_of_alGet_some hget
  · unfold House.devices
    rw [hget]
    exact congrArg Except.ok hempty

/-- Witness for the amended C5 on a concrete one-socket room. -/
theorem remove_last_socket_keeps_empty_room_witness :
    "a" ∈ (House.remove_socket_from_room ⟨"H", [("a", [("A", ⟨0, "A"⟩)])], ⟨[⟨0, "A"⟩]⟩⟩
        "a" ⟨0, "A"⟩).rooms ∧
    (House.remove_socket_from_room ⟨"H", [("a", [("A", ⟨0, "A"⟩)])], ⟨[⟨0, "A"⟩]⟩⟩
        "a" ⟨0, "A"⟩).devices "a" = .ok [] :=
  remove_last_socket_keeps_empty_room
    ⟨"H", [("a", [("A", ⟨0, "A"⟩)])], ⟨[⟨0, "A"⟩]⟩⟩ ⟨0, "A"⟩ "a"
    [("A", ⟨0, "A"⟩)] (by decide) (by decide)

/-- House states reachable from `House::new` through the mutating public
API (`poll` borrows the house immutably and cannot change it, so it needs
no constructor here). -/
inductive Reachable : House → Prop
  | new (n : String) : Reachable (House.new n)
  | add (h : House) (d : SocketRef) (r : String) :
      Reachable h → Reachable (h.add_socket_to_room d r).1
  | rmRoom (h : House) (r : String) :
      Reachable h → Reachable (h.remove_room r)
  | rmSocket (h : House) (r : String) (d : SocketRef) :
      Reachable h → Reachable (h.remove_socket_from_room r d)

/-- Within each single room's mapping, device names (the keys of the inner
map) are pairwise distinct. -/
def RoomKeysUnique (h : House) : Prop :=
  ∀ r m, alGet h.device_by_room r = some m → (m.map Prod.fst).Nodup

theorem roomKeysUnique_new (n : String) : RoomKeysUnique (House.new n) :=
  fun _ _ hm => Option.noConfusion hm

theorem roomKeysUnique_add (h : House) (d : SocketRef) (r : String)
    (hu : RoomKeysUnique h) : RoomKeysUnique (h.add_socket_to_room d r).1 := by
  cases hm : alGet h.device_by_room r with
  | some m =>
    by_cases hd : d.name ∈ m.map Prod.fst
    · rw [add_socket_eq_of_mem h d r m hm hd]
      exact hu
    · rw [add_socket_eq_of_present_fresh h d r m hm hd]
      intro r0 m0 hm0
      by_cases hr0 : r0 = r
      · subst hr0
        rw [alGet_alInsert_self] at hm0
        cases hm0
        rw [map_fst_alInsert_of_alGet_none d ((alGet_eq_none_iff m d.name).mpr hd)]
        simp only [List.nodup_append, List.nodup_cons, List.not_mem_nil,
          not_false_iff, List.nodup_nil, and_true, true_and]
        refine ⟨hu r0 m hm, ?_⟩
        intro x hx
        simp only [List.mem_singleton]
        intro hxd
        exact hd (hxd ▸ hx)
      · rw [alGet_alInsert_ne _ _ _ _ hr0] at hm0
        exact hu r0 m0 hm0
  | none =>
    rw [add_socket_eq_of_absent h d r hm]
    intro r0 m0 hm0
    by_cases hr0 : r0 = r
    · subst hr0
      rw [alGet_alInsert_self] at hm0
      cases hm0
      simp [alInsert]
    · rw [alGet_alInsert_ne _ _ _ _ hr0,
        alGet_append_singleton_ne _ _ _ _ hr0] at hm0
      exact hu r0 m0 hm0

theorem roomKeysUnique_remove_room (h : House) (r : String)
    (hu : RoomKeysUnique h) : RoomKeysUnique (h.remove_room r) := by
  intro r0 m0 hm0
  by_cases hr0 : r0 = r
  · subst hr0
    rw [House.remove_room] at hm0
    rw [alGet_alRemove_self] at hm0
    exact Option.noConfusion hm0
  · rw [House.remove_room] at hm0
    rw [alGet_alRemove_ne _ _ _ hr0] at hm0
    exact hu r0 m0 hm0

theorem roomKeysUnique_remove_socket (h : House) (r : String) (d : SocketRef)
    (hu : RoomKeysUnique h) : RoomKeysUnique (h.remove_socket_from_room r d) := by
  cases hm : alGet h.device_by_room r with
  | some m =>
    intro r0 m0 hm0
    simp only [House.remove_socket_from_room, hm] at hm0
    by_cases hr0 : r0 = r
    · subst hr0
      rw [alGet_alInsert_self] at hm0
      cases hm0
      rw [map_fst_alRemove]
      exact (hu r0 m hm).filter _
    · rw [alGet_alInsert_ne _ _ _ _ hr0] at hm0
      exact hu r0 m0 hm0
  | none =>
    intro r0 m0 hm0
    simp only [House.remove_socket_from_room, hm] at hm0
    exact hu r0 m0 hm0

/-- C8: every house state reachable from `House::new` through the public
operations satisfies the invariant that within each single room's mapping
the device names are unique. -/
theorem reachable_roomKeysUnique (h : House) (hr : Reachable h) :
    RoomKeysUnique h := by
  induction hr with
  | new n => exact roomKeysUnique_new n
  | add h d r _ ih => exact roomKeysUnique_add h d r ih
  | rmRoom h r _ ih => exact roomKeysUnique_remove_room h r ih
  | rmSocket h r d _ ih => exact roomKeysUnique_remove_socket h r d ih

/-- Witness for C8: a concrete reachable state — one socket added to a
fresh house — has unique device names in each room. -/
theorem reachable_roomKeysUnique_witness :
    RoomKeysUnique ((House.new "W").add_socket_to_room ⟨0, "s"⟩ "a").1 :=
  reachable_roomKeysUnique _
    (Reachable.add (House.new "W") ⟨0, "s"⟩ "a" (Reachable.new "W"))

/-! Facts about the voltage heap and the `poll` loop. -/

theorem map_fst_heapSet (heap : VoltHeap) (i : Nat) (v : ℚ) :
    (heapSet heap i v).map Prod.fst = heap.map Prod.fst := by
  induction heap with
  | nil => rfl
  | cons p rest ih =>
    simp only [heapSet, List.map_cons] at ih ⊢
    refine congrArg₂ List.cons ?_ ih
    by_cases hp : p.1 = i
    · simp [hp]
    · simp [hp]

theorem heapSet_range (heap : VoltHeap) (i : Nat) (v : ℚ)
    (hv : 0 ≤ v ∧ v < 380) (hheap : ∀ p ∈ heap, 0 ≤ p.2 ∧ p.2 < 380) :
    ∀ p ∈ heapSet heap i v, 0 ≤ p.2 ∧ p.2 < 380 := by
  intro p hp
  rcases List.mem_map.mp hp with ⟨q, hq, hpq⟩
  rw [← hpq]
  by_cases hqi : q.1 = i
  · simpa [hqi] using hv
  · simpa [hqi] using hheap q hq

theorem pollFold_spec (entropy : Nat → ℚ)
    (hent : ∀ n, 0 ≤ entropy n ∧ entropy n < 380) :
    ∀ (ids : List Nat) (k : Nat) (heap : VoltHeap),
      (∀ p ∈ heap, 0 ≤ p.2 ∧ p.2 < 380) →
      (ids.foldl (fun kh i => House.pollOne entropy i kh) (k, heap)).1
          = k + ids.length ∧
      (∀ p ∈ (ids.foldl (fun kh i => House.pollOne entropy i kh) (k, heap)).2,
        0 ≤ p.2 ∧ p.2 < 380) ∧
      (ids.foldl (fun kh i => House.pollOne entropy i kh) (k, heap)).2.map Prod.fst
          = heap.map Prod.fst := by
  intro ids
  induction ids with
  | nil =>
    intro k heap hheap
    exact ⟨rfl, hheap, rfl⟩
  | cons i rest ih =>
    intro k heap hheap
    have hheap' : ∀ p ∈ heapSet heap i (entropy k), 0 ≤ p.2 ∧ p.2 < 380 :=
      heapSet_range heap i (entropy k) (hent k) hheap
    rcases ih (k + 1) (heapSet heap i (entropy k)) hheap' with ⟨h1, h2, h3⟩
    simp only [List.foldl_cons, House.pollOne] at h1 h2 h3 ⊢
    refine ⟨?_, h2, ?_⟩
    · rw [h1, List.length_cons]
      omega
    · rw [h3, map_fst_heapSet]

/-- C9: `House::poll` invokes the device-level `poll` exactly once on every
device of every room — witnessed here by the entropy counter advancing by
exactly the number of stored device entries, one fresh sample consumed per
invocation, in room-then-device iteration order (`pollIds`).  Under the
hypothesis that the entropy source only returns values in `[0, 380)` (the
`gen_range(0.0..380.0)` contract) and that all pre-poll readings were in
that range (they are, since every cell is initialised by the same sampler),
after polling every voltage cell's reading lies in `[0, 380)`, and the set
of cells (allocation ids) is unchanged.  The method takes `&self`, which
the embedding renders by `poll` acting on the heap only, so no room
membership or device name can change. -/
theorem poll_spec (h : House) (entropy : Nat → ℚ) (k : Nat) (heap : VoltHeap)
    (hent : ∀ n, 0 ≤ entropy n ∧ entropy n < 380)
    (hheap : ∀ p ∈ heap, 0 ≤ p.2 ∧ p.2 < 380) :
    (h.poll entropy k heap).1 = k + h.pollIds.length ∧
    (∀ p ∈ (h.poll entropy k heap).2, 0 ≤ p.2 ∧ p.2 < 380) ∧
    (h.poll entropy k heap).2.map Prod.fst = heap.map Prod.fst :=
  pollFold_spec entropy hent h.pollIds k heap hheap

/-- Witness for C9 on a one-socket house with a constant in-range entropy
stream. -/
theorem poll_spec_witness :
    (House.poll ⟨"H", [("a", [("A", ⟨0, "A"⟩)])], ⟨[⟨0, "A"⟩]⟩⟩ (fun _ => 5) 0
        ([(0, 1)] : VoltHeap)).1
      = 0 + (House.pollIds ⟨"H", [("a", [("A", ⟨0, "A"⟩)])], ⟨[⟨0, "A"⟩]⟩⟩).length ∧
    (∀ p ∈ (House.poll ⟨"H", [("a", [("A", ⟨0, "A"⟩)])], ⟨[⟨0, "A"⟩]⟩⟩ (fun _ => 5) 0
        ([(0, 1)] : VoltHeap)).2, 0 ≤ p.2 ∧ p.2 < 380) ∧
    (House.poll ⟨"H", [("a", [("A", ⟨0, "A"⟩)])], ⟨[⟨0, "A"⟩]⟩⟩ (fun _ => 5) 0
        ([(0, 1)] : VoltHeap)).2.map Prod.fst = ([(0, 1)] : VoltHeap).map Prod.fst :=
  poll_spec ⟨"H", [("a", [("A", ⟨0, "A"⟩)])], ⟨[⟨0, "A"⟩]⟩⟩ (fun _ => 5) 0
    ([(0, 1)] : VoltHeap) (fun _ => ⟨by norm_num, by norm_num⟩)
    (by
      intro p hp
      rw [List.mem_singleton] at hp
      rw [hp]
      exact ⟨by norm_num, by norm_num⟩)

end RustyPlug
